import Mathlib

/-!
Verification of the snap-coin-wallet vault codec and session send coordinator.

The development shallowly embeds the wallet's two core components:

* the vault codec of `src/encryption.rs` (`encrypt_wallets` / `decrypt_wallets`),
  working over byte lists (`List Nat`, each byte `< 256` where it matters).
  Wallet names are represented by their UTF-8 byte sequences (Rust guarantees
  every `String` is valid UTF-8, on which `String::from_utf8_lossy` is the
  identity, so the byte level captures the name round trip exactly).
  The AES-256-GCM cipher and the `snap_coin` hash are external library
  collaborators; they are modelled as an ideal keyed stream cipher with a
  16-byte authentication tag appended to the ciphertext, matching the blob
  format `[12-byte nonce][ciphertext + 16-byte tag]` of the interface
  documentation, and as a fixed 32-byte keyed digest. The random nonce is an
  explicit parameter.

* the command handler of `src/handle_command.rs`, embedded as a pure function
  over a session state (wallet map, current wallet, session PIN, session spent
  set) and an environment of external collaborators (ledger client, transaction
  builder, PIN reader, filesystem), returning the new state, an outcome
  (`Ok` / propagated error / process exit) and the list of external calls made.
-/

namespace SnapWallet

/-- A vault at the byte level: wallet name bytes paired with private-key bytes. -/
abbrev ByteVault := List (List Nat × List Nat)

/-- Model of the external 32-byte digest `snap_coin::crypto::Hash`:
a keyed fold producing 32 bytes. -/
def hashBytes (input : List Nat) : List Nat :=
  (List.range 32).map fun i =>
    input.foldl (fun a b => (a * 131 + b + 1) % 256) ((i * 37 + 11) % 256)

/-- The UTF-8 bytes of the domain-separation prefix string of
`compute_pin_hash` in `src/encryption.rs` (the text before the PIN). -/
def pinDomainBytes : List Nat :=
  [115, 110, 97, 112, 45, 99, 111, 105, 110, 45, 119, 97, 108, 108, 101, 116, 45]

/-- `compute_pin_hash` of `src/encryption.rs`: hash of the domain prefix
followed by the PIN bytes, used as the 32-byte cipher key. -/
def compute_pin_hash (pin : List Nat) : List Nat :=
  hashBytes (pinDomainBytes ++ pin)

/-- One byte of the model keystream of the external AEAD cipher, keyed by
cipher key, nonce and position. -/
def keystreamByte (key nonce : List Nat) (i : Nat) : Nat :=
  (key ++ nonce).foldl (fun a b => (a * 131 + b + 1) % 256) (i % 256)

/-- XOR a byte list against the keystream starting at position `i`
(the CTR-style body of the modelled AEAD cipher). -/
def xorMaskFrom (key nonce : List Nat) : Nat → List Nat → List Nat
  | _, [] => []
  | i, b :: rest => (b ^^^ keystreamByte key nonce i) :: xorMaskFrom key nonce (i + 1) rest

/-- The 16-byte authentication tag of the modelled AEAD cipher, keyed by
cipher key, nonce and plaintext. -/
def aeadTag (key nonce pt : List Nat) : List Nat :=
  (List.range 16).map fun i =>
    (key ++ (nonce ++ pt)).foldl (fun a b => (a * 193 + b + 7) % 256) (i % 256)

/-- Model of the external AEAD encryption (`Aes256Gcm::encrypt`): the masked
plaintext followed by the 16-byte tag, so the ciphertext is always exactly
16 bytes longer than the plaintext, as for AES-GCM. -/
def aeadEncrypt (key nonce pt : List Nat) : List Nat :=
  xorMaskFrom key nonce 0 pt ++ aeadTag key nonce pt

/-- Model of the external AEAD decryption (`Aes256Gcm::decrypt`): reject
ciphertexts shorter than the tag, unmask the body, recompute and compare
the tag; failure is a single generic `none`. -/
def aeadDecrypt (key nonce ct : List Nat) : Option (List Nat) :=
  if ct.length < 16 then none
  else
    let body := ct.take (ct.length - 16)
    let tag := ct.drop (ct.length - 16)
    let pt := xorMaskFrom key nonce 0 body
    if aeadTag key nonce pt = tag then some pt else none

/-- The serialization loop of `encrypt_wallets` in `src/encryption.rs`:
for each entry one length byte (fails if the name has more than 255 bytes),
the name bytes, then the key bytes. -/
def serializeWallets : ByteVault → Option (List Nat)
  | [] => some []
  | (name, key) :: rest =>
    if 255 < name.length then none
    else
      match serializeWallets rest with
      | none => none
      | some s => some (name.length :: (name ++ (key ++ s)))

/-- The deserialization loop of `decrypt_wallets` in `src/encryption.rs`:
read a length byte, fail if fewer than `len + 32` bytes remain, read the
name bytes and 32 key bytes, continue; entries are returned in stream order
(the Rust code inserts them into a `HashMap` in this order). -/
def parseEntries : List Nat → Option ByteVault
  | [] => some []
  | len :: rest =>
    if rest.length < len + 32 then none
    else
      match parseEntries (rest.drop (len + 32)) with
      | none => none
      | some es => some ((rest.take len, (rest.drop len).take 32) :: es)
  termination_by l => l.length
  decreasing_by simp; omega

/-- `encrypt_wallets` of `src/encryption.rs`, with the random 12-byte nonce an
explicit parameter: serialize (early failure on long names), build the cipher
from the 32-byte PIN hash, and return nonce then ciphertext. -/
def encrypt_wallets (wallets : ByteVault) (pin : List Nat) (nonce : List Nat) :
    Option (List Nat) :=
  match serializeWallets wallets with
  | none => none
  | some serialized =>
    if (compute_pin_hash pin).length = 32 then
      some (nonce ++ aeadEncrypt (compute_pin_hash pin) nonce serialized)
    else none

/-- `decrypt_wallets` of `src/encryption.rs`: reject blobs shorter than
12 bytes, split nonce and ciphertext, authenticated-decrypt, parse the
plaintext. -/
def decrypt_wallets (data : List Nat) (pin : List Nat) : Option ByteVault :=
  if data.length < 12 then none
  else
    if (compute_pin_hash pin).length = 32 then
      match aeadDecrypt (compute_pin_hash pin) (data.take 12) (data.drop 12) with
      | none => none
      | some pt => parseEntries pt
    else none

/-- The mapping view of an entry list built by successive `HashMap::insert`
calls: the value of the last insert for a name wins. -/
def lookupLast (es : ByteVault) (n : List Nat) : Option (List Nat) :=
  es.foldl (fun acc p => if p.1 = n then some p.2 else acc) none

/-- The UTF-8 encoding of one character (code point to one to four bytes). -/
def utf8Bytes (c : Char) : List Nat :=
  let n := c.toNat
  if n < 128 then [n]
  else if n < 2048 then [192 + n / 64, 128 + n % 64]
  else if n < 65536 then [224 + n / 4096, 128 + (n / 64) % 64, 128 + n % 64]
  else [240 + n / 262144, 128 + (n / 4096) % 64, 128 + (n / 64) % 64, 128 + n % 64]

/-- UTF-8 bytes of a Rust `String` (`name.as_bytes()`). -/
def nameBytes (s : String) : List Nat :=
  s.data.flatMap utf8Bytes

/-- `encrypt_wallets` applied to the string-keyed in-memory wallet map, as the
command handler's `persist` does: names and PIN are passed as their UTF-8
bytes. -/
def encryptWalletsS (ws : List (String × List Nat)) (pin : String)
    (nonce : List Nat) : Option (List Nat) :=
  encrypt_wallets (ws.map (fun p => (nameBytes p.1, p.2))) (nameBytes pin) nonce

/-- `HashMap::get` on the in-memory wallet map (unique keys, so the first
match is the entry). -/
def lookupName (ws : List (String × List Nat)) (name : String) :
    Option (List Nat) :=
  match ws with
  | [] => none
  | p :: rest => if p.1 = name then some p.2 else lookupName rest name

/-- `HashMap::remove` on the in-memory wallet map. -/
def removeName (ws : List (String × List Nat)) (name : String) :
    List (String × List Nat) :=
  ws.filter (fun p => p.1 != name)

/-- Result of one `send` command, one constructor per exit point of the
`"send"` arm of `handle_command` in `src/handle_command.rs`. -/
inductive SendResult where
  | usageError
  | invalidAmount
  | buildFailed
  | difficultyError
  | powError
  | pinReadError
  | pinMismatch
  | submitError
  | mempoolError
  | accepted
  | rejected
  deriving DecidableEq

/-- External calls (network, cryptographic work, PIN prompts, persistence)
made while handling one command, in order. -/
inductive CallEvent where
  | balanceCall
  | availableCall
  | historyCall
  | txInfoCall
  | buildCall
  | difficultyCall
  | powCall
  | readPinCall
  | submitCall
  | mempoolPoll
  | saveLastLoginCall
  | persistCall (pin : String) (encOk : Bool) (written : Bool)
  deriving DecidableEq

/-- Result of `handle_command`: `Ok(())`, a propagated `Err`, or process
termination via `exit(code)`. -/
inductive Outcome where
  | ok
  | err
  | exited (code : Nat)
  deriving DecidableEq

/-- The external collaborators consumed by `handle_command`: address and
amount parsers, the ledger client, the transaction builder, the PIN reader
(indexed by prompt order within one command, `none` for an I/O error), and
the filesystem. -/
structure Env (Addr Amt Tx TxIn TxId : Type) where
  parseAddr : String → Option Addr
  parseAmount : String → Option Amt
  parseTxId : String → Option TxId
  getBalanceOk : Bool
  getAvailableOk : Bool
  getHistoryOk : Bool
  getTransactionOk : Bool
  build : List Nat → List (Addr × Amt) → List TxIn → Option Tx
  difficultyOk : Bool
  powAssign : Tx → Option (Tx × TxId)
  txInputs : Tx → List TxIn
  readPin : Nat → Option String
  submitOk : Bool
  mempoolOk : Bool
  mempoolHas : TxId → Bool
  saveLastLoginOk : Bool
  writeOk : Bool
  nonce : List Nat

/-- The mutable session context threaded through `handle_command`: the
in-memory wallet map, the current wallet name, the session PIN and the
session spent set (`used_session_inputs`). -/
structure SessionState (TxIn : Type) where
  wallets : List (String × List Nat)
  currentWallet : String
  pin : String
  used : List TxIn

variable {Addr Amt Tx TxIn TxId : Type}

/-- The payment-collection loop of the `"send"` arm: pairs are consumed two
at a time; an amount that fails to parse aborts the whole send (`none`); a
recipient that fails to parse is only reported and the pair is skipped. -/
def collectPayments (env : Env Addr Amt Tx TxIn TxId) :
    List String → Option (List (Addr × Amt))
  | [] => some []
  | [_] => some []
  | r :: a :: rest =>
    match env.parseAmount a with
    | none => none
    | some amt =>
      match env.parseAddr r with
      | some addr =>
        match collectPayments env rest with
        | none => none
        | some ps => some ((addr, amt) :: ps)
      | none => collectPayments env rest

/-- The full external-call trace of a send that reached the mempool poll. -/
def sendFullTrace : List CallEvent :=
  [CallEvent.buildCall, CallEvent.difficultyCall, CallEvent.powCall,
   CallEvent.readPinCall, CallEvent.submitCall, CallEvent.mempoolPoll]

/-- The `"send"` arm of `handle_command` (lines 140-202): arity check,
payment collection, transaction build, difficulty fetch, proof of work,
PIN confirmation, submission, single mempool poll; on acceptance the
transaction's inputs are appended to the session spent set. Returns the
result, the new spent set and the external-call trace. -/
def sendStep (env : Env Addr Amt Tx TxIn TxId) (walletKey : List Nat)
    (pin : String) (args : List String) (used : List TxIn) :
    SendResult × List TxIn × List CallEvent :=
  if args.length % 2 ≠ 0 ∨ args.length < 2 then (SendResult.usageError, used, [])
  else
    match collectPayments env args with
    | none => (SendResult.invalidAmount, used, [])
    | some payments =>
      match env.build walletKey payments used with
      | none => (SendResult.buildFailed, used, [CallEvent.buildCall])
      | some tx =>
        if env.difficultyOk then
          match env.powAssign tx with
          | none =>
            (SendResult.powError, used,
             [CallEvent.buildCall, CallEvent.difficultyCall, CallEvent.powCall])
          | some (tx2, txId) =>
            match env.readPin 0 with
            | none =>
              (SendResult.pinReadError, used,
               [CallEvent.buildCall, CallEvent.difficultyCall, CallEvent.powCall,
                CallEvent.readPinCall])
            | some entered =>
              if entered ≠ pin then
                (SendResult.pinMismatch, used,
                 [CallEvent.buildCall, CallEvent.difficultyCall, CallEvent.powCall,
                  CallEvent.readPinCall])
              else if env.submitOk then
                if env.mempoolOk then
                  if env.mempoolHas txId then
                    (SendResult.accepted, used ++ env.txInputs tx2, sendFullTrace)
                  else
                    (SendResult.rejected, used, sendFullTrace)
                else
                  (SendResult.mempoolError, used, sendFullTrace)
              else
                (SendResult.submitError, used,
                 [CallEvent.buildCall, CallEvent.difficultyCall, CallEvent.powCall,
                  CallEvent.readPinCall, CallEvent.submitCall])
        else
          (SendResult.difficultyError, used,
           [CallEvent.buildCall, CallEvent.difficultyCall])

/-- The build-and-prove pipeline of the send flow, used to name the proven
transaction and its identifier in statements. -/
def sendPow (env : Env Addr Amt Tx TxIn TxId) (walletKey : List Nat)
    (args : List String) (used : List TxIn) : Option (Tx × TxId) :=
  match collectPayments env args with
  | none => none
  | some payments =>
    match env.build walletKey payments used with
    | none => none
    | some tx => env.powAssign tx

/-- Which send results are propagated as `Err` by `handle_command` (the `?`
operators) rather than reported and swallowed as `Ok(())`. -/
def sendOutcome : SendResult → Outcome
  | SendResult.difficultyError => Outcome.err
  | SendResult.powError => Outcome.err
  | SendResult.pinReadError => Outcome.err
  | SendResult.submitError => Outcome.err
  | SendResult.mempoolError => Outcome.err
  | _ => Outcome.ok

/-- The `persist` helper of `src/handle_command.rs` as the event it leaves in
the trace: encryption failure is reported (nothing written); otherwise the
blob is written (the write itself may fail at the filesystem). -/
def persistEvent (env : Env Addr Amt Tx TxIn TxId)
    (ws : List (String × List Nat)) (pin : String) : CallEvent :=
  match encryptWalletsS ws pin env.nonce with
  | some _ => CallEvent.persistCall pin true env.writeOk
  | none => CallEvent.persistCall pin false false

/-- The commit part of `wallet delete` after the PIN was confirmed: remove
the entry, persist, and if the current wallet was deleted switch to the
first remaining wallet or fail the session when none remain. -/
def deleteCommit (env : Env Addr Amt Tx TxIn TxId) (st : SessionState TxIn)
    (name : String) : SessionState TxIn × Outcome × List CallEvent :=
  if st.currentWallet = name then
    match removeName st.wallets name with
    | [] =>
      ({st with wallets := removeName st.wallets name}, Outcome.err,
       [CallEvent.readPinCall, persistEvent env (removeName st.wallets name) st.pin])
    | (first, _) :: _ =>
      ({st with wallets := removeName st.wallets name, currentWallet := first},
       Outcome.ok,
       [CallEvent.readPinCall, persistEvent env (removeName st.wallets name) st.pin])
  else
    ({st with wallets := removeName st.wallets name}, Outcome.ok,
     [CallEvent.readPinCall, persistEvent env (removeName st.wallets name) st.pin])

/-- The `wallet <subcmd>` arm of `handle_command`: delete (PIN confirmed),
private (PIN confirmed, display only), public (display only), switch
(persist last login then change current wallet). -/
def walletSubcommand (env : Env Addr Amt Tx TxIn TxId) (st : SessionState TxIn)
    (subcmd : String) (name : String) :
    SessionState TxIn × Outcome × List CallEvent :=
  if subcmd = "delete" then
    match lookupName st.wallets name with
    | none => (st, Outcome.ok, [])
    | some _ =>
      match env.readPin 0 with
      | none => (st, Outcome.err, [CallEvent.readPinCall])
      | some confirm =>
        if confirm ≠ st.pin then (st, Outcome.ok, [CallEvent.readPinCall])
        else deleteCommit env st name
  else if subcmd = "private" then
    match lookupName st.wallets name with
    | none => (st, Outcome.ok, [])
    | some _ =>
      match env.readPin 0 with
      | none => (st, Outcome.err, [CallEvent.readPinCall])
      | some _ => (st, Outcome.ok, [CallEvent.readPinCall])
  else if subcmd = "public" then (st, Outcome.ok, [])
  else if subcmd = "switch" then
    match lookupName st.wallets name with
    | none => (st, Outcome.ok, [])
    | some _ =>
      if env.saveLastLoginOk then
        ({st with currentWallet := name}, Outcome.ok, [CallEvent.saveLastLoginCall])
      else (st, Outcome.err, [CallEvent.saveLastLoginCall])
  else (st, Outcome.ok, [])

/-- The `change-pin` arm of `handle_command` (lines 290-304): confirm the
current PIN, read the new PIN twice, persist under the new PIN and terminate
the process with `exit(0)`. The session PIN field is never written. -/
def changePin (env : Env Addr Amt Tx TxIn TxId) (st : SessionState TxIn) :
    SessionState TxIn × Outcome × List CallEvent :=
  match env.readPin 0 with
  | none => (st, Outcome.err, [CallEvent.readPinCall])
  | some confirm =>
    if confirm ≠ st.pin then (st, Outcome.ok, [CallEvent.readPinCall])
    else
      match env.readPin 1 with
      | none => (st, Outcome.err, [CallEvent.readPinCall, CallEvent.readPinCall])
      | some newPin =>
        match env.readPin 2 with
        | none =>
          (st, Outcome.err,
           [CallEvent.readPinCall, CallEvent.readPinCall, CallEvent.readPinCall])
        | some confirm2 =>
          if newPin ≠ confirm2 then
            (st, Outcome.ok,
             [CallEvent.readPinCall, CallEvent.readPinCall, CallEvent.readPinCall])
          else
            (st, Outcome.exited 0,
             [CallEvent.readPinCall, CallEvent.readPinCall, CallEvent.readPinCall,
              persistEvent env st.wallets newPin])

/-- Dispatch on the command word, mirroring the `match cmd` of
`handle_command`; `walletKey` is the current wallet's private key resolved
before the dispatch. -/
def dispatch (env : Env Addr Amt Tx TxIn TxId) (st : SessionState TxIn)
    (walletKey : List Nat) (cmd : String) (args : List String) :
    SessionState TxIn × Outcome × List CallEvent :=
  if cmd = "help" then (st, Outcome.ok, [])
  else if cmd = "balance" then
    (st, if env.getBalanceOk then Outcome.ok else Outcome.err,
     [CallEvent.balanceCall])
  else if cmd = "available" then
    (st, if env.getAvailableOk then Outcome.ok else Outcome.err,
     [CallEvent.availableCall])
  else if cmd = "history" then
    (st, if env.getHistoryOk then Outcome.ok else Outcome.err,
     [CallEvent.historyCall])
  else if cmd = "tx-info" then
    if args.length ≠ 1 then (st, Outcome.ok, [])
    else
      match env.parseTxId (args.getD 0 ("")) with
      | none => (st, Outcome.ok, [])
      | some _ =>
        (st, if env.getTransactionOk then Outcome.ok else Outcome.err,
         [CallEvent.txInfoCall])
  else if cmd = "send" then
    ({st with used := (sendStep env walletKey st.pin args st.used).2.1},
     sendOutcome (sendStep env walletKey st.pin args st.used).1,
     (sendStep env walletKey st.pin args st.used).2.2)
  else if cmd = "wallet" then
    match args with
    | [] => (st, Outcome.ok, [])
    | subcmd :: rest =>
      walletSubcommand env st subcmd (rest.getD 0 st.currentWallet)
  else if cmd = "change-pin" then changePin env st
  else (st, Outcome.ok, [])

/-- `handle_command` of `src/handle_command.rs`, on the whitespace-split
tokens of the command line: an empty command is a no-op, a missing current
wallet is reported before any dispatch, otherwise the command word is
dispatched. -/
def handleCommand (env : Env Addr Amt Tx TxIn TxId) (st : SessionState TxIn)
    (tokens : List String) : SessionState TxIn × Outcome × List CallEvent :=
  match tokens with
  | [] => (st, Outcome.ok, [])
  | cmd :: args =>
    match lookupName st.wallets st.currentWallet with
    | none => (st, Outcome.ok, [])
    | some walletKey => dispatch env st walletKey cmd args

/-- A concrete collaborator environment over small types, for evaluating the
model on explicit inputs: `pins` drives the PIN reader, `addrOk` whether
addresses parse, `amtOf` the amount parser, `inMempool` whether the submitted
transaction shows up in the mempool poll. -/
def mkEnv (pins : Nat → Option String) (addrOk : Bool)
    (amtOf : String → Option Nat) (inMempool : Bool) :
    Env Unit Nat Unit Nat Unit where
  parseAddr := fun _ => if addrOk then some () else none
  parseAmount := amtOf
  parseTxId := fun _ => some ()
  getBalanceOk := true
  getAvailableOk := true
  getHistoryOk := true
  getTransactionOk := true
  build := fun _ _ _ => some ()
  difficultyOk := true
  powAssign := fun _ => some ((), ())
  txInputs := fun _ => [42]
  readPin := pins
  submitOk := true
  mempoolOk := true
  mempoolHas := fun _ => inMempool
  saveLastLoginOk := true
  writeOk := true
  nonce := List.replicate 12 0

/-- A wallet name whose UTF-8 encoding is 256 bytes long, over the 255-byte
serialization limit. -/
def bigName : String := String.mk (List.replicate 256 'a')

/-- Concrete session state for the persistence-failure scenario: the current
wallet's name is 256 bytes long, so re-encrypting the vault fails after any
mutation that keeps it. -/
def persistFailState : SessionState Nat where
  wallets := [(bigName, List.replicate 32 1), ("b", List.replicate 32 2)]
  currentWallet := bigName
  pin := "123456"
  used := []

/-- A small concrete session state for evaluating the model. -/
def demoState : SessionState Nat where
  wallets := [("w", List.replicate 32 3)]
  currentWallet := "w"
  pin := "123456"
  used := [7]

theorem take_append_len {α : Type _} (l₁ l₂ : List α) :
    (l₁ ++ l₂).take l₁.length = l₁ := by
  induction l₁ with
  | nil => rfl
  | cons a t ih => simp [ih]

theorem drop_append_len {α : Type _} (l₁ l₂ : List α) :
    (l₁ ++ l₂).drop l₁.length = l₂ := by
  induction l₁ with
  | nil => rfl
  | cons a t ih => simp [ih]

theorem compute_pin_hash_length (pin : List Nat) :
    (compute_pin_hash pin).length = 32 := by
  simp [compute_pin_hash, hashBytes]

theorem xorMaskFrom_length (key nonce : List Nat) :
    ∀ (i : Nat) (pt : List Nat), (xorMaskFrom key nonce i pt).length = pt.length := by
  intro i pt
  induction pt generalizing i with
  | nil => rfl
  | cons b rest ih => simp [xorMaskFrom, ih]

theorem xorMaskFrom_invol (key nonce : List Nat) :
    ∀ (i : Nat) (pt : List Nat),
      xorMaskFrom key nonce i (xorMaskFrom key nonce i pt) = pt := by
  intro i pt
  induction pt generalizing i with
  | nil => rfl
  | cons b rest ih =>
    simp only [xorMaskFrom, ih]
    rw [Nat.xor_assoc, Nat.xor_self, Nat.xor_zero]

theorem aeadTag_length (key nonce pt : List Nat) :
    (aeadTag key nonce pt).length = 16 := by
  simp [aeadTag]

theorem aeadEncrypt_length (key nonce pt : List Nat) :
    (aeadEncrypt key nonce pt).length = pt.length + 16 := by
  simp [aeadEncrypt, xorMaskFrom_length, aeadTag_length]

/-- Decrypting what the modelled AEAD cipher encrypted, under the same key
and nonce, recovers the plaintext. -/
theorem aeadDecrypt_aeadEncrypt (key nonce pt : List Nat) :
    aeadDecrypt key nonce (aeadEncrypt key nonce pt) = some pt := by
  have hm := xorMaskFrom_length key nonce 0 pt
  have ht := aeadTag_length key nonce pt
  have hlen : (aeadEncrypt key nonce pt).length = pt.length + 16 :=
    aeadEncrypt_length key nonce pt
  unfold aeadDecrypt
  rw [if_neg (by omega)]
  have hsub : (aeadEncrypt key nonce pt).length - 16 = pt.length := by omega
  have htake : (aeadEncrypt key nonce pt).take ((aeadEncrypt key nonce pt).length - 16)
      = xorMaskFrom key nonce 0 pt := by
    rw [hsub, ← hm]
    exact take_append_len _ _
  have hdrop : (aeadEncrypt key nonce pt).drop ((aeadEncrypt key nonce pt).length - 16)
      = aeadTag key nonce pt := by
    rw [hsub, ← hm]
    exact drop_append_len _ _
  simp [htake, hdrop, xorMaskFrom_invol]

theorem serializeWallets_isSome (v : ByteVault)
    (h : ∀ p ∈ v, p.1.length ≤ 255) : ∃ s, serializeWallets v = some s := by
  induction v with
  | nil => exact ⟨[], rfl⟩
  | cons p t ih =>
    obtain ⟨s, hs⟩ := ih (fun q hq => h q (List.mem_cons_of_mem p hq))
    obtain ⟨name, key⟩ := p
    have hn : ¬255 < name.length := by
      have := h (name, key) (List.mem_cons_self _ _)
      simp at this
      omega
    exact ⟨name.length :: (name ++ (key ++ s)), by simp [serializeWallets, hn, hs]⟩

theorem serializeWallets_none_iff (v : ByteVault) :
    serializeWallets v = none ↔ ∃ p ∈ v, 255 < p.1.length := by
  induction v with
  | nil => simp [serializeWallets]
  | cons p t ih =>
    obtain ⟨name, key⟩ := p
    by_cases hn : 255 < name.length
    · constructor
      · intro _
        exact ⟨(name, key), List.mem_cons_self _ _, hn⟩
      · intro _
        simp [serializeWallets, if_pos hn]
    · cases hs : serializeWallets t with
      | none =>
        constructor
        · intro _
          obtain ⟨p, hp, h255⟩ := ih.mp hs
          exact ⟨p, List.mem_cons_of_mem _ hp, h255⟩
        · intro _
          simp [serializeWallets, if_neg hn, hs]
      | some s =>
        constructor
        · intro h
          rw [serializeWallets, if_neg hn, hs] at h
          exact absurd h (by simp)
        · rintro ⟨q, hq, h255⟩
          rcases List.mem_cons.mp hq with hq | hq
          · subst hq; exact absurd h255 hn
          · have := ih.mpr ⟨q, hq, h255⟩
            rw [hs] at this
            exact absurd this (by simp)

theorem serializeWallets_empty_iff (v : ByteVault) (s : List Nat)
    (h : serializeWallets v = some s) : s = [] ↔ v = [] := by
  cases v with
  | nil =>
    simp only [serializeWallets] at h
    have : s = [] := (Option.some.inj h).symm
    subst this
    simp
  | cons p t =>
    obtain ⟨name, key⟩ := p
    simp only [serializeWallets] at h
    by_cases hn : 255 < name.length
    · rw [if_pos hn] at h; exact absurd h (by simp)
    · rw [if_neg hn] at h
      cases hs : serializeWallets t with
      | none => rw [hs] at h; exact absurd h (by simp)
      | some s' =>
        rw [hs] at h
        have : s = name.length :: (name ++ (key ++ s')) := (Option.some.inj h).symm
        subst this
        simp

/-- Parsing a valid serialization followed by any remainder parses the
serialized entries, then continues on the remainder. -/
theorem parseEntries_append (v : ByteVault) (s r : List Nat)
    (hk : ∀ p ∈ v, p.2.length = 32) (hs : serializeWallets v = some s) :
    parseEntries (s ++ r) =
      match parseEntries r with
      | none => none
      | some es => some (v ++ es) := by
  induction v generalizing s with
  | nil =>
    simp only [serializeWallets] at hs
    have : s = [] := (Option.some.inj hs).symm
    subst this
    cases hr : parseEntries r with
    | none => simp [hr]
    | some es => simp [hr]
  | cons p t ih =>
    obtain ⟨name, key⟩ := p
    have hkey : key.length = 32 := hk (name, key) (List.mem_cons_self _ _)
    simp only [serializeWallets] at hs
    by_cases hn : 255 < name.length
    · rw [if_pos hn] at hs; exact absurd hs (by simp)
    · rw [if_neg hn] at hs
      cases hst : serializeWallets t with
      | none => rw [hst] at hs; exact absurd hs (by simp)
      | some s' =>
        rw [hst] at hs
        have hseq : s = name.length :: (name ++ (key ++ s')) := (Option.some.inj hs).symm
        subst hseq
        have hrest : (name ++ (key ++ s')) ++ r = name ++ (key ++ (s' ++ r)) := by
          simp
        have hrest2 : name ++ (key ++ (s' ++ r)) = (name ++ key) ++ (s' ++ r) := by
          simp
        rw [List.cons_append]
        rw [parseEntries]
        rw [hrest]
        have hlen : ¬((name ++ (key ++ (s' ++ r))).length < name.length + 32) := by
          simp only [List.length_append, hkey]
          omega
        rw [if_neg hlen]
        have htake : (name ++ (key ++ (s' ++ r))).take name.length = name :=
          take_append_len _ _
        have hdrop1 : (name ++ (key ++ (s' ++ r))).drop name.length = key ++ (s' ++ r) :=
          drop_append_len _ _
        have hdrop2 : (name ++ (key ++ (s' ++ r))).drop (name.length + 32) = s' ++ r := by
          rw [hrest2]
          have : name.length + 32 = (name ++ key).length := by simp [hkey]
          rw [this]
          exact drop_append_len _ _
        have htake2 : ((name ++ (key ++ (s' ++ r))).drop name.length).take 32 = key := by
          rw [hdrop1, ← hkey]
          exact take_append_len _ _
        rw [hdrop2, htake, htake2]
        rw [ih s' (fun q hq => hk q (List.mem_cons_of_mem _ hq)) hst]
        cases hr : parseEntries r with
        | none => simp [hr]
        | some es => simp [hr]

/-- Parsing back exactly what was serialized recovers the entry list. -/
theorem parseEntries_serializeWallets (v : ByteVault) (s : List Nat)
    (hk : ∀ p ∈ v, p.2.length = 32) (hs : serializeWallets v = some s) :
    parseEntries s = some v := by
  have := parseEntries_append v s [] hk hs
  simpa [parseEntries] using this

/-- C1: for every vault of names of at most 255 bytes and 32-byte private
keys and every PIN, encryption under a 12-byte nonce succeeds, and decrypting
the produced blob under the same PIN succeeds and returns a mapping equal to
the original vault: the same entries, hence the same key set and the same
32-byte private key for each name under the insert-order map view. -/
theorem snap_c1_roundtrip (v : ByteVault) (pin nonce : List Nat)
    (hn : nonce.length = 12)
    (hname : ∀ p ∈ v, p.1.length ≤ 255)
    (hkey : ∀ p ∈ v, p.2.length = 32) :
    ∃ blob, encrypt_wallets v pin nonce = some blob ∧
      ∃ es, decrypt_wallets blob pin = some es ∧
        ∀ n, lookupLast es n = lookupLast v n := by
  obtain ⟨s, hs⟩ := serializeWallets_isSome v hname
  refine ⟨nonce ++ aeadEncrypt (compute_pin_hash pin) nonce s, ?_, v, ?_, fun n => rfl⟩
  · simp [encrypt_wallets, hs, compute_pin_hash_length]
  · have hblen : (nonce ++ aeadEncrypt (compute_pin_hash pin) nonce s).length
        = 12 + (s.length + 16) := by
      simp only [List.length_append, aeadEncrypt_length, hn]
    unfold decrypt_wallets
    rw [if_neg (by omega)]
    rw [if_pos (compute_pin_hash_length pin)]
    have htake : (nonce ++ aeadEncrypt (compute_pin_hash pin) nonce s).take 12 = nonce := by
      rw [← hn]
      exact take_append_len _ _
    have hdrop : (nonce ++ aeadEncrypt (compute_pin_hash pin) nonce s).drop 12
        = aeadEncrypt (compute_pin_hash pin) nonce s := by
      rw [← hn]
      exact drop_append_len _ _
    rw [htake, hdrop, aeadDecrypt_aeadEncrypt]
    exact parseEntries_serializeWallets v s hkey hs

/-- Witness for C1 at a concrete one-entry vault, PIN and nonce. -/
theorem snap_c1_roundtrip_witness :
    ∃ blob,
      encrypt_wallets [([97], List.replicate 32 7)] [1, 2, 3] (List.replicate 12 5)
        = some blob ∧
      ∃ es, decrypt_wallets blob [1, 2, 3] = some es ∧
        ∀ n, lookupLast es n = lookupLast [([97], List.replicate 32 7)] n :=
  snap_c1_roundtrip [([97], List.replicate 32 7)] [1, 2, 3] (List.replicate 12 5)
    (by decide) (by decide) (by decide)

/-- C7 counterexample: encrypting the empty vault succeeds but produces a
28-byte blob whose ciphertext portion after the 12-byte nonce is the 16-byte
authentication tag, not the empty list — the claim's "an empty vault yields
a 12-byte blob of the nonce alone" fails. -/
theorem snap_c7_blob_cex :
    (encrypt_wallets [] [1] (List.replicate 12 0)).isSome = true ∧
    ((encrypt_wallets [] [1] (List.replicate 12 0)).getD []).length = 28 ∧
    ((encrypt_wallets [] [1] (List.replicate 12 0)).getD []).drop 12 ≠ [] := by
  refine ⟨by decide, by decide, by decide⟩

/-- C7 amended: every blob produced by a successful encrypt under a 12-byte
nonce is the nonce followed by the ciphertext; the ciphertext always carries
the 16-byte authentication tag, so the blob is at least 28 bytes long, and
the ciphertext portion is exactly the 16-byte tag (empty plaintext) precisely
when the vault is empty. -/
theorem snap_c7_blob_structure (v : ByteVault) (pin nonce blob : List Nat)
    (hn : nonce.length = 12)
    (h : encrypt_wallets v pin nonce = some blob) :
    ∃ ct, blob = nonce ++ ct ∧ 16 ≤ ct.length ∧ (ct.length = 16 ↔ v = []) ∧
      28 ≤ blob.length := by
  unfold encrypt_wallets at h
  cases hs : serializeWallets v with
  | none => rw [hs] at h; exact absurd h (by simp)
  | some s =>
    rw [hs] at h
    have h2 : (if (compute_pin_hash pin).length = 32 then
        some (nonce ++ aeadEncrypt (compute_pin_hash pin) nonce s)
        else none) = some blob := h
    rw [if_pos (compute_pin_hash_length pin)] at h2
    have hb : blob = nonce ++ aeadEncrypt (compute_pin_hash pin) nonce s :=
      (Option.some.inj h2).symm
    refine ⟨aeadEncrypt (compute_pin_hash pin) nonce s, hb, ?_, ?_, ?_⟩
    · rw [aeadEncrypt_length]; omega
    · rw [aeadEncrypt_length]
      constructor
      · intro hlen
        have : s = [] := by
          have : s.length = 0 := by omega
          exact List.length_eq_zero.mp this
        exact (serializeWallets_empty_iff v s hs).mp this
      · intro hv
        subst hv
        simp only [serializeWallets] at hs
        have : s = [] := (Option.some.inj hs).symm
        subst this
        rfl
    · rw [hb]
      simp only [List.length_append, aeadEncrypt_length, hn]
      omega

/-- Witness for C7 amended at the empty vault with a concrete PIN and nonce. -/
theorem snap_c7_blob_structure_witness :
    ∃ ct, (encrypt_wallets [] [2] (List.replicate 12 1)).getD [] = List.replicate 12 1 ++ ct ∧
      16 ≤ ct.length ∧ (ct.length = 16 ↔ ([] : ByteVault) = []) ∧
      28 ≤ ((encrypt_wallets [] [2] (List.replicate 12 1)).getD []).length :=
  snap_c7_blob_structure [] [2] (List.replicate 12 1)
    ((encrypt_wallets [] [2] (List.replicate 12 1)).getD [])
    (by decide) (by rfl)

/-- C8: encrypting a vault fails exactly when some wallet name's byte length
exceeds 255 (in the model key derivation and cipher construction always
succeed, as they do for the 32-byte PIN hash in the code); in particular a
vault whose names all have at most 255 bytes — for example exactly 255 —
encrypts successfully, and any vault containing a 256-byte name fails. -/
theorem snap_c8_name_length (v : ByteVault) (pin nonce : List Nat) :
    encrypt_wallets v pin nonce = none ↔ ∃ p ∈ v, 255 < p.1.length := by
  rw [← serializeWallets_none_iff]
  unfold encrypt_wallets
  cases hs : serializeWallets v with
  | none => simp
  | some s => simp [compute_pin_hash_length]

/-- C9: decryption fails on truncated input: every blob shorter than
12 bytes is rejected, and deserialization of a plaintext that consists of
any number of well-formed entries followed by a length byte with fewer than
`len + 32` remaining bytes fails, returning no partial vault. -/
theorem snap_c9_truncation :
    (∀ (data pin : List Nat), data.length < 12 → decrypt_wallets data pin = none) ∧
    (∀ (v : ByteVault) (s : List Nat), serializeWallets v = some s →
      (∀ p ∈ v, p.2.length = 32) →
      ∀ (len : Nat) (tail : List Nat), tail.length < len + 32 →
        parseEntries (s ++ len :: tail) = none) := by
  constructor
  · intro data pin h
    simp [decrypt_wallets, h]
  · intro v s hs hk len tail ht
    rw [parseEntries_append v s (len :: tail) hk hs]
    have hnone : parseEntries (len :: tail) = none := by
      rw [parseEntries, if_pos ht]
    rw [hnone]

/-- Witness for C9: an 11-byte blob is rejected, and a valid one-entry
serialization followed by a truncated second entry fails to parse. -/
theorem snap_c9_truncation_witness :
    decrypt_wallets (List.replicate 11 0) [1] = none ∧
    parseEntries ((serializeWallets [([97], List.replicate 32 0)]).getD [] ++ 5 :: [0, 0])
      = none :=
  ⟨snap_c9_truncation.1 (List.replicate 11 0) [1] (by decide),
   snap_c9_truncation.2 [([97], List.replicate 32 0)]
     ((serializeWallets [([97], List.replicate 32 0)]).getD [])
     (by rfl) (by decide) 5 [0, 0] (by decide)⟩

theorem list_pair_induction {α : Type _} {P : List α → Prop}
    (h0 : P []) (h1 : ∀ x, P [x])
    (h2 : ∀ x y rest, P rest → P (x :: y :: rest)) : ∀ l, P l
  | [] => h0
  | [x] => h1 x
  | x :: y :: rest => h2 x y rest (list_pair_induction h0 h1 h2 rest)

/-- An amount that fails to parse, at any odd argument position, makes the
payment-collection loop abort with `none`. -/
theorem collectPayments_none_of_badAmount (env : Env Addr Amt Tx TxIn TxId) :
    ∀ (args : List String),
      (∃ j, 2 * j + 1 < args.length ∧
        env.parseAmount (args.getD (2 * j + 1) ("")) = none) →
      collectPayments env args = none := by
  intro args
  induction args using list_pair_induction with
  | h0 =>
    rintro ⟨j, hj, _⟩
    simp at hj
  | h1 x =>
    rintro ⟨j, hj, _⟩
    simp at hj
  | h2 x y rest ih =>
    rintro ⟨j, hj, hbad⟩
    cases hp : env.parseAmount y with
    | none => simp [collectPayments, hp]
    | some amt =>
      have hrest : collectPayments env rest = none := by
        apply ih
        cases j with
        | zero =>
          exfalso
          simp [List.getD_cons_succ, List.getD_cons_zero] at hbad
          rw [hbad] at hp
          exact absurd hp (by simp)
        | succ j' =>
          refine ⟨j', ?_, ?_⟩
          · simp at hj
            omega
          · have harith : 2 * (j' + 1) + 1 = (2 * j' + 1) + 2 := by ring
            rw [harith] at hbad
            simpa [List.getD_cons_succ] using hbad
      cases ha : env.parseAddr x with
      | none => simp [collectPayments, hp, ha, hrest]
      | some addr => simp [collectPayments, hp, ha, hrest]

/-- The send flow only ever appends to the session spent set. -/
theorem sendStep_used_append (env : Env Addr Amt Tx TxIn TxId)
    (walletKey : List Nat) (pin : String) (args : List String) (used : List TxIn) :
    ∃ d, (sendStep env walletKey pin args used).2.1 = used ++ d := by
  by_cases h : args.length % 2 = 1 ∨ args.length < 2
  · exact ⟨[], by simp [sendStep, h]⟩
  · cases hc : collectPayments env args with
    | none => exact ⟨[], by simp [sendStep, h, hc]⟩
    | some payments =>
      cases hb : env.build walletKey payments used with
      | none => exact ⟨[], by simp [sendStep, h, hc, hb]⟩
      | some tx =>
        cases hdo : env.difficultyOk with
        | false => exact ⟨[], by simp [sendStep, h, hc, hb, hdo]⟩
        | true =>
          cases hp : env.powAssign tx with
          | none => exact ⟨[], by simp [sendStep, h, hc, hb, hdo, hp]⟩
          | some pr =>
            obtain ⟨tx2, txId⟩ := pr
            cases hr : env.readPin 0 with
            | none => exact ⟨[], by simp [sendStep, h, hc, hb, hdo, hp, hr]⟩
            | some entered =>
              by_cases he : entered = pin
              · cases hso : env.submitOk with
                | false => exact ⟨[], by simp [sendStep, h, hc, hb, hdo, hp, hr, he, hso]⟩
                | true =>
                  cases hmo : env.mempoolOk with
                  | false =>
                    exact ⟨[], by simp [sendStep, h, hc, hb, hdo, hp, hr, he, hso, hmo]⟩
                  | true =>
                    cases hh : env.mempoolHas txId with
                    | false =>
                      exact ⟨[], by simp [sendStep, h, hc, hb, hdo, hp, hr, he, hso, hmo, hh]⟩
                    | true =>
                      exact ⟨env.txInputs tx2,
                        by simp [sendStep, h, hc, hb, hdo, hp, hr, he, hso, hmo, hh]⟩
              · exact ⟨[], by simp [sendStep, h, hc, hb, hdo, hp, hr, he]⟩

/-- When the current wallet resolves, a nonempty command reduces to the
dispatch on its command word. -/
theorem handleCommand_cons (env : Env Addr Amt Tx TxIn TxId)
    (st : SessionState TxIn) (cmd : String) (args : List String)
    (walletKey : List Nat)
    (hw : lookupName st.wallets st.currentWallet = some walletKey) :
    handleCommand env st (cmd :: args) = dispatch env st walletKey cmd args := by
  unfold handleCommand
  rw [hw]

/-- When the current wallet does not resolve, every nonempty command is a
no-op. -/
theorem handleCommand_noWallet (env : Env Addr Amt Tx TxIn TxId)
    (st : SessionState TxIn) (cmd : String) (args : List String)
    (hw : lookupName st.wallets st.currentWallet = none) :
    handleCommand env st (cmd :: args) = (st, Outcome.ok, []) := by
  unfold handleCommand
  rw [hw]

theorem dispatch_send (env : Env Addr Amt Tx TxIn TxId) (st : SessionState TxIn)
    (walletKey : List Nat) (args : List String) :
    dispatch env st walletKey ("send") args =
      ({st with used := (sendStep env walletKey st.pin args st.used).2.1},
       sendOutcome (sendStep env walletKey st.pin args st.used).1,
       (sendStep env walletKey st.pin args st.used).2.2) := rfl

theorem dispatch_wallet (env : Env Addr Amt Tx TxIn TxId) (st : SessionState TxIn)
    (walletKey : List Nat) (subcmd : String) (rest : List String) :
    dispatch env st walletKey ("wallet") (subcmd :: rest) =
      walletSubcommand env st subcmd (rest.getD 0 st.currentWallet) := rfl

theorem dispatch_change_pin (env : Env Addr Amt Tx TxIn TxId) (st : SessionState TxIn)
    (walletKey : List Nat) (args : List String) :
    dispatch env st walletKey ("change-pin") args = changePin env st := rfl

theorem deleteCommit_used (env : Env Addr Amt Tx TxIn TxId) (st : SessionState TxIn)
    (name : String) : (deleteCommit env st name).1.used = st.used := by
  unfold deleteCommit
  by_cases hc : st.currentWallet = name
  · cases hrem : removeName st.wallets name with
    | nil => simp [hc, hrem]
    | cons p rest =>
      obtain ⟨first, k⟩ := p
      simp [hc, hrem]
  · simp [hc]

theorem walletSubcommand_used (env : Env Addr Amt Tx TxIn TxId) (st : SessionState TxIn)
    (subcmd name : String) : (walletSubcommand env st subcmd name).1.used = st.used := by
  unfold walletSubcommand
  by_cases h1 : subcmd = "delete"
  · rw [if_pos h1]
    cases hl : lookupName st.wallets name with
    | none => simp [hl]
    | some k =>
      cases hr : env.readPin 0 with
      | none => simp [hl, hr]
      | some confirm =>
        by_cases hcp : confirm = st.pin
        · simp [hl, hr, hcp, deleteCommit_used]
        · simp [hl, hr, hcp]
  · rw [if_neg h1]
    by_cases h2 : subcmd = "private"
    · rw [if_pos h2]
      cases hl : lookupName st.wallets name with
      | none => simp [hl]
      | some k =>
        cases hr : env.readPin 0 with
        | none => simp [hl, hr]
        | some confirm => simp [hl, hr]
    · rw [if_neg h2]
      by_cases h3 : subcmd = "public"
      · rw [if_pos h3]
      · rw [if_neg h3]
        by_cases h4 : subcmd = "switch"
        · rw [if_pos h4]
          cases hl : lookupName st.wallets name with
          | none => simp [hl]
          | some k =>
            cases hsl : env.saveLastLoginOk with
            | false => simp [hl, hsl]
            | true => simp [hl, hsl]
        · rw [if_neg h4]

theorem changePin_used (env : Env Addr Amt Tx TxIn TxId) (st : SessionState TxIn) :
    (changePin env st).1.used = st.used := by
  unfold changePin
  cases h0 : env.readPin 0 with
  | none => simp
  | some confirm =>
    by_cases hc : confirm = st.pin
    · cases h1 : env.readPin 1 with
      | none => simp [hc]
      | some np =>
        cases h2 : env.readPin 2 with
        | none => simp [hc]
        | some c2 =>
          by_cases hn : np = c2
          · simp [hc, hn]
          · simp [hc, hn]
    · simp [hc]

/-- The dispatch on any command word only ever appends to the session spent
set. -/
theorem dispatch_used (env : Env Addr Amt Tx TxIn TxId) (st : SessionState TxIn)
    (walletKey : List Nat) (cmd : String) (args : List String) :
    ∃ d, (dispatch env st walletKey cmd args).1.used = st.used ++ d := by
  by_cases h1 : cmd = "help"
  · exact ⟨[], by simp [dispatch, h1]⟩
  by_cases h2 : cmd = "balance"
  · exact ⟨[], by simp [dispatch, h1, h2]⟩
  by_cases h3 : cmd = "available"
  · exact ⟨[], by simp [dispatch, h1, h2, h3]⟩
  by_cases h4 : cmd = "history"
  · exact ⟨[], by simp [dispatch, h1, h2, h3, h4]⟩
  by_cases h5 : cmd = "tx-info"
  · refine ⟨[], ?_⟩
    simp only [dispatch, h1, h2, h3, h4, if_neg, if_pos, h5, if_true, if_false]
    by_cases ha : args.length ≠ 1
    · simp [ha]
    · cases hp : env.parseTxId (args.getD 0 ("")) with
      | none => simp [ha, hp]
      | some _ => simp [ha, hp]
  by_cases h6 : cmd = "send"
  · subst h6
    rw [dispatch_send]
    obtain ⟨d, hd⟩ := sendStep_used_append env walletKey st.pin args st.used
    exact ⟨d, hd⟩
  by_cases h7 : cmd = "wallet"
  · subst h7
    cases args with
    | nil => exact ⟨[], by simp [dispatch]⟩
    | cons subcmd rest =>
      rw [dispatch_wallet]
      exact ⟨[], by simp [walletSubcommand_used]⟩
  by_cases h8 : cmd = "change-pin"
  · subst h8
    rw [dispatch_change_pin]
    exact ⟨[], by simp [changePin_used]⟩
  · exact ⟨[], by simp [dispatch, h1, h2, h3, h4, h5, h6, h7, h8]⟩

/-- C5: the session spent set is append-only across every command the
handler processes: the spent set after any command is the spent set before
it with zero or more identifiers appended, so identifiers are only ever
added, never removed. -/
theorem snap_c5_append_only (env : Env Addr Amt Tx TxIn TxId)
    (st : SessionState TxIn) (tokens : List String) :
    ∃ d, (handleCommand env st tokens).1.used = st.used ++ d := by
  cases tokens with
  | nil => exact ⟨[], by simp [handleCommand]⟩
  | cons cmd args =>
    cases hw : lookupName st.wallets st.currentWallet with
    | none => exact ⟨[], by rw [handleCommand_noWallet env st cmd args hw]; simp⟩
    | some k =>
      rw [handleCommand_cons env st cmd args k hw]
      exact dispatch_used env st k cmd args

/-- C2 counterexample: a send whose first recipient does not parse as a
valid address does not abort — the transaction builder is still invoked
(and the send proceeds), contradicting the claim that any malformed entry
aborts before any network or cryptographic work. -/
theorem snap_c2_cex :
    CallEvent.buildCall ∈
      (sendStep (mkEnv (fun _ => some ("123456")) false (fun _ => some 5) true)
        (List.replicate 32 0) ("123456") ["x", "5"] ([] : List Nat)).2.2 := by
  decide

/-- C2 amended: the send aborts before any network or cryptographic work
(no build, no proof of work, no submission — the call trace is empty, the
spent set unchanged) exactly in these malformed cases: odd arity, fewer than
one pair, or an amount that fails to parse as a number. A recipient that
fails to parse as an address is only reported and its pair skipped — the
send proceeds with the remaining pairs — and amounts are not checked for
positivity. -/
theorem snap_c2_validation_aborts (env : Env Addr Amt Tx TxIn TxId)
    (walletKey : List Nat) (pin : String) (args : List String) (used : List TxIn)
    (h : args.length % 2 ≠ 0 ∨ args.length < 2 ∨
      ∃ j, 2 * j + 1 < args.length ∧
        env.parseAmount (args.getD (2 * j + 1) ("")) = none) :
    ((sendStep env walletKey pin args used).1 = SendResult.usageError ∨
     (sendStep env walletKey pin args used).1 = SendResult.invalidAmount) ∧
    (sendStep env walletKey pin args used).2.2 = [] ∧
    (sendStep env walletKey pin args used).2.1 = used := by
  by_cases harf : args.length % 2 = 1 ∨ args.length < 2
  · refine ⟨Or.inl ?_, ?_, ?_⟩ <;> simp [sendStep, harf]
  · have hbad : ∃ j, 2 * j + 1 < args.length ∧
        env.parseAmount (args.getD (2 * j + 1) ("")) = none := by
      rcases h with h | h | h
      · exfalso; exact harf (Or.inl (by omega))
      · exfalso; exact harf (Or.inr h)
      · exact h
    have hcol := collectPayments_none_of_badAmount env args hbad
    refine ⟨Or.inr ?_, ?_, ?_⟩ <;> simp [sendStep, harf, hcol]

/-- Witness for C2 amended: a send with an unparseable amount aborts with
an empty call trace and an unchanged spent set. -/
theorem snap_c2_validation_aborts_witness :
    ((sendStep (mkEnv (fun _ => some ("123456")) true
        (fun s => if s = "5" then some 5 else none) true)
        (List.replicate 32 0) ("123456") ["a", "bad"] ([7] : List Nat)).1
          = SendResult.usageError ∨
     (sendStep (mkEnv (fun _ => some ("123456")) true
        (fun s => if s = "5" then some 5 else none) true)
        (List.replicate 32 0) ("123456") ["a", "bad"] ([7] : List Nat)).1
          = SendResult.invalidAmount) ∧
    (sendStep (mkEnv (fun _ => some ("123456")) true
        (fun s => if s = "5" then some 5 else none) true)
        (List.replicate 32 0) ("123456") ["a", "bad"] ([7] : List Nat)).2.2 = [] ∧
    (sendStep (mkEnv (fun _ => some ("123456")) true
        (fun s => if s = "5" then some 5 else none) true)
        (List.replicate 32 0) ("123456") ["a", "bad"] ([7] : List Nat)).2.1 = [7] :=
  snap_c2_validation_aborts
    (mkEnv (fun _ => some ("123456")) true (fun s => if s = "5" then some 5 else none) true)
    (List.replicate 32 0) ("123456") ["a", "bad"] [7]
    (Or.inr (Or.inr ⟨0, by decide, by decide⟩))

/-- Reaching the PIN confirmation with a PIN different from the session's
unlocked PIN stops the send: nothing is submitted and the spent set is
untouched, on every control path. -/
theorem sendStep_pin_mismatch (env : Env Addr Amt Tx TxIn TxId)
    (walletKey : List Nat) (pin : String) (args : List String) (used : List TxIn)
    (c : String) (hr : env.readPin 0 = some c) (hc : c ≠ pin) :
    (sendStep env walletKey pin args used).2.1 = used ∧
    CallEvent.submitCall ∉ (sendStep env walletKey pin args used).2.2 := by
  by_cases h : args.length % 2 = 1 ∨ args.length < 2
  · constructor <;> simp [sendStep, h]
  · cases hcol : collectPayments env args with
    | none => constructor <;> simp [sendStep, h, hcol]
    | some ps =>
      cases hb : env.build walletKey ps used with
      | none => constructor <;> simp [sendStep, h, hcol, hb]
      | some tx =>
        cases hdo : env.difficultyOk with
        | false => constructor <;> simp [sendStep, h, hcol, hb, hdo]
        | true =>
          cases hp : env.powAssign tx with
          | none => constructor <;> simp [sendStep, h, hcol, hb, hdo, hp]
          | some pr =>
            obtain ⟨tx2, txId⟩ := pr
            constructor <;> simp [sendStep, h, hcol, hb, hdo, hp, hr, hc]

/-- C3: on a send command, if the PIN entered at the confirmation prompt
differs from the session's unlocked PIN, the send aborts with no submission
to the ledger client and the session spent set is exactly the same after the
command as before it. -/
theorem snap_c3_pin_mismatch (env : Env Addr Amt Tx TxIn TxId)
    (st : SessionState TxIn) (args : List String) (c : String)
    (hr : env.readPin 0 = some c) (hc : c ≠ st.pin) :
    (handleCommand env st (("send") :: args)).1.used = st.used ∧
    CallEvent.submitCall ∉ (handleCommand env st (("send") :: args)).2.2 := by
  cases hw : lookupName st.wallets st.currentWallet with
  | none =>
    rw [handleCommand_noWallet env st _ args hw]
    exact ⟨rfl, by simp⟩
  | some k =>
    rw [handleCommand_cons env st _ args k hw, dispatch_send]
    have hstep := sendStep_pin_mismatch env k st.pin args st.used c hr hc
    exact ⟨hstep.1, hstep.2⟩

/-- Witness for C3: entering `999999` against session PIN `123456` leaves
the spent set `[7]` unchanged and never submits. -/
theorem snap_c3_pin_mismatch_witness :
    (handleCommand (mkEnv (fun _ => some ("999999")) true (fun _ => some 5) true)
      demoState (("send") :: ["a", "5"])).1.used = demoState.used ∧
    CallEvent.submitCall ∉
      (handleCommand (mkEnv (fun _ => some ("999999")) true (fun _ => some 5) true)
        demoState (("send") :: ["a", "5"])).2.2 :=
  snap_c3_pin_mismatch (mkEnv (fun _ => some ("999999")) true (fun _ => some 5) true)
    demoState ["a", "5"] ("999999") (by rfl) (by decide)

/-- C4: for every send that reaches the submission step (the submit call
appears in its trace) and whose submit and mempool calls return, the
pending-transaction pool is polled exactly once; if the proven transaction's
identifier is in the poll result the transaction's consumed inputs are
appended to the session spent set, and if it is absent the send is reported
as rejected and the spent set is left unchanged. -/
theorem snap_c4_verify_poll (env : Env Addr Amt Tx TxIn TxId)
    (walletKey : List Nat) (pin : String) (args : List String) (used : List TxIn)
    (hreach : CallEvent.submitCall ∈ (sendStep env walletKey pin args used).2.2)
    (hsub : env.submitOk = true) (hmem : env.mempoolOk = true) :
    (sendStep env walletKey pin args used).2.2.count CallEvent.mempoolPoll = 1 ∧
    ∃ tx txId, sendPow env walletKey args used = some (tx, txId) ∧
      (env.mempoolHas txId = true →
        (sendStep env walletKey pin args used).1 = SendResult.accepted ∧
        (sendStep env walletKey pin args used).2.1 = used ++ env.txInputs tx) ∧
      (env.mempoolHas txId = false →
        (sendStep env walletKey pin args used).1 = SendResult.rejected ∧
        (sendStep env walletKey pin args used).2.1 = used) := by
  by_cases h : args.length % 2 = 1 ∨ args.length < 2
  · exfalso; simp [sendStep, h] at hreach
  · cases hcol : collectPayments env args with
    | none => exfalso; simp [sendStep, h, hcol] at hreach
    | some ps =>
      cases hb : env.build walletKey ps used with
      | none => exfalso; simp [sendStep, h, hcol, hb] at hreach
      | some tx =>
        cases hdo : env.difficultyOk with
        | false => exfalso; simp [sendStep, h, hcol, hb, hdo] at hreach
        | true =>
          cases hp : env.powAssign tx with
          | none => exfalso; simp [sendStep, h, hcol, hb, hdo, hp] at hreach
          | some pr =>
            obtain ⟨tx2, txId⟩ := pr
            cases hr : env.readPin 0 with
            | none => exfalso; simp [sendStep, h, hcol, hb, hdo, hp, hr] at hreach
            | some entered =>
              by_cases he : entered = pin
              · refine ⟨?_, tx2, txId, ?_, ?_, ?_⟩
                · cases hh : env.mempoolHas txId with
                  | true =>
                    have ht : (sendStep env walletKey pin args used).2.2 = sendFullTrace := by
                      simp [sendStep, h, hcol, hb, hdo, hp, hr, he, hsub, hmem, hh]
                    rw [ht]; decide
                  | false =>
                    have ht : (sendStep env walletKey pin args used).2.2 = sendFullTrace := by
                      simp [sendStep, h, hcol, hb, hdo, hp, hr, he, hsub, hmem, hh]
                    rw [ht]; decide
                · simp [sendPow, hcol, hb, hp]
                · intro hh
                  constructor <;> simp [sendStep, h, hcol, hb, hdo, hp, hr, he, hsub, hmem, hh]
                · intro hh
                  constructor <;> simp [sendStep, h, hcol, hb, hdo, hp, hr, he, hsub, hmem, hh]
              · exfalso; simp [sendStep, h, hcol, hb, hdo, hp, hr, he] at hreach

/-- Witness for C4 at a concrete environment where the submitted identifier
is present in the mempool poll. -/
theorem snap_c4_verify_poll_witness :
    (sendStep (mkEnv (fun _ => some ("123456")) true (fun _ => some 5) true)
      (List.replicate 32 3) ("123456") ["a", "5"] ([] : List Nat)).2.2.count
        CallEvent.mempoolPoll = 1 ∧
    ∃ tx txId,
      sendPow (mkEnv (fun _ => some ("123456")) true (fun _ => some 5) true)
        (List.replicate 32 3) ["a", "5"] ([] : List Nat) = some (tx, txId) ∧
      ((mkEnv (fun _ => some ("123456")) true (fun _ => some 5) true).mempoolHas txId = true →
        (sendStep (mkEnv (fun _ => some ("123456")) true (fun _ => some 5) true)
          (List.replicate 32 3) ("123456") ["a", "5"] ([] : List Nat)).1
            = SendResult.accepted ∧
        (sendStep (mkEnv (fun _ => some ("123456")) true (fun _ => some 5) true)
          (List.replicate 32 3) ("123456") ["a", "5"] ([] : List Nat)).2.1
            = [] ++ (mkEnv (fun _ => some ("123456")) true (fun _ => some 5) true).txInputs tx) ∧
      ((mkEnv (fun _ => some ("123456")) true (fun _ => some 5) true).mempoolHas txId = false →
        (sendStep (mkEnv (fun _ => some ("123456")) true (fun _ => some 5) true)
          (List.replicate 32 3) ("123456") ["a", "5"] ([] : List Nat)).1
            = SendResult.rejected ∧
        (sendStep (mkEnv (fun _ => some ("123456")) true (fun _ => some 5) true)
          (List.replicate 32 3) ("123456") ["a", "5"] ([] : List Nat)).2.1 = []) :=
  snap_c4_verify_poll (mkEnv (fun _ => some ("123456")) true (fun _ => some 5) true)
    (List.replicate 32 3) ("123456") ["a", "5"] [] (by decide) (by rfl) (by rfl)

set_option maxRecDepth 8000 in
/-- C6 counterexample: deleting wallet `"b"` with the correct PIN from a
vault whose remaining wallet name is 256 bytes long makes the persistence
step's encryption fail — the failure is recorded (nothing written) yet the
in-memory wallet map has been mutated, not left untouched. -/
theorem snap_c6_persist_cex :
    (handleCommand (mkEnv (fun _ => some ("123456")) true (fun _ => some 5) true)
      persistFailState (["wallet", "delete", "b"])).2.2 =
      [CallEvent.readPinCall, CallEvent.persistCall ("123456") false false] ∧
    (handleCommand (mkEnv (fun _ => some ("123456")) true (fun _ => some 5) true)
      persistFailState (["wallet", "delete", "b"])).1.wallets ≠
      persistFailState.wallets := by
  constructor <;> decide

/-- C6 amended: when re-encrypting the vault fails during a wallet delete
(correct PIN, deleted wallet distinct from the current one), the failure is
reported — the persist event records the encryption failure and nothing is
written to disk — but the in-memory wallet map keeps the mutation: the
deleted entry stays removed, with no rollback to the prior in-memory state. -/
theorem snap_c6_persist_failure (env : Env Addr Amt Tx TxIn TxId)
    (st : SessionState TxIn) (name : String) (k kc : List Nat)
    (hwc : lookupName st.wallets st.currentWallet = some kc)
    (hname : lookupName st.wallets name = some k)
    (hcur : st.currentWallet ≠ name)
    (hpin : env.readPin 0 = some st.pin)
    (henc : encryptWalletsS (removeName st.wallets name) st.pin env.nonce = none) :
    handleCommand env st (["wallet", "delete", name]) =
      ({st with wallets := removeName st.wallets name}, Outcome.ok,
       [CallEvent.readPinCall, CallEvent.persistCall st.pin false false]) := by
  rw [handleCommand_cons env st _ _ kc hwc, dispatch_wallet]
  have hget : (([name] : List String).getD 0 st.currentWallet) = name := rfl
  rw [hget]
  unfold walletSubcommand
  rw [if_pos rfl]
  simp only [hname, hpin]
  rw [if_neg (by simp)]
  unfold deleteCommit
  rw [if_neg hcur]
  unfold persistEvent
  rw [henc]

set_option maxRecDepth 8000 in
/-- Witness for C6 amended at the concrete failing state: the result is the
mutated map with the reported persistence failure. -/
theorem snap_c6_persist_failure_witness :
    handleCommand (mkEnv (fun _ => some ("123456")) true (fun _ => some 5) true)
      persistFailState (["wallet", "delete", "b"]) =
      ({persistFailState with wallets := removeName persistFailState.wallets ("b")},
       Outcome.ok,
       [CallEvent.readPinCall, CallEvent.persistCall persistFailState.pin false false]) :=
  snap_c6_persist_failure
    (mkEnv (fun _ => some ("123456")) true (fun _ => some 5) true)
    persistFailState ("b") (List.replicate 32 2) (List.replicate 32 1)
    (by decide) (by decide) (by decide) (by rfl) (by decide)

/-- C10: with the correct current PIN and two matching new PIN entries, the
change-pin command persists the vault under the new PIN and terminates the
whole process with exit status 0 (so no further command runs in the
session), and the returned session state — its PIN field in particular — is
completely unchanged. -/
theorem snap_c10_change_pin_exits (env : Env Addr Amt Tx TxIn TxId)
    (st : SessionState TxIn) (k : List Nat) (newPin : String)
    (hw : lookupName st.wallets st.currentWallet = some k)
    (h0 : env.readPin 0 = some st.pin)
    (h1 : env.readPin 1 = some newPin)
    (h2 : env.readPin 2 = some newPin) :
    handleCommand env st (["change-pin"]) =
      (st, Outcome.exited 0,
       [CallEvent.readPinCall, CallEvent.readPinCall, CallEvent.readPinCall,
        persistEvent env st.wallets newPin]) := by
  rw [handleCommand_cons env st _ _ k hw, dispatch_change_pin]
  unfold changePin
  simp [h0, h1, h2]

/-- Witness for C10: correct PIN `123456` and new PIN `654321` entered
twice exits with status 0 after persisting under the new PIN. -/
theorem snap_c10_change_pin_exits_witness :
    handleCommand
      (mkEnv (fun i => if i = 0 then some ("123456") else some ("654321"))
        true (fun _ => some 5) true)
      demoState (["change-pin"]) =
      (demoState, Outcome.exited 0,
       [CallEvent.readPinCall, CallEvent.readPinCall, CallEvent.readPinCall,
        persistEvent
          (mkEnv (fun i => if i = 0 then some ("123456") else some ("654321"))
            true (fun _ => some 5) true)
          demoState.wallets ("654321")]) :=
  snap_c10_change_pin_exits
    (mkEnv (fun i => if i = 0 then some ("123456") else some ("654321"))
      true (fun _ => some 5) true)
    demoState (List.replicate 32 3) ("654321")
    (by decide) (by rfl) (by rfl) (by rfl)

end SnapWallet
